import Mathlib

/-!
Verification of the HireSense AI resume-ranking core (`app.py`).

The development shallowly embeds the algorithmic core of the application:

* `extract_text_from_pdf` — the per-document text extraction wrapper.  A source
  document is modelled by `PdfFile`: either the reader decodes it and yields a
  list of per-page extracted strings (an empty string standing for a page with
  no text layer, i.e. a falsy `page.extract_text()` result), or reading raises
  an exception carrying a message.
* `rank_resumes` — TF-IDF vectorisation and cosine scoring.  The call
  `TfidfVectorizer().fit_transform(documents)` is embedded by its documented
  default behaviour: lowercase word tokenisation with pattern `\w\w+`
  (maximal runs of at least two word characters, restricted here to ASCII
  alphanumerics and underscore), raw term counts, smoothed inverse document
  frequency `ln((n+1)/(df+1)) + 1`, L2 normalisation, and an `empty
  vocabulary` error (a raised `ValueError`, embedded as `Except.error`) when
  no document contributes a token.  `cosine_similarity` maps a pair of
  vectors to their dot product divided by the product of their norms, with a
  zero vector yielding 0 (sklearn replaces zero norms by one before
  dividing).  Exact real arithmetic stands in for IEEE floating point.
* the `show_dashboard` processing block — error-file filtering by the
  substring test `"Error extracting text" in text`, Python's stable
  `sorted(..., key=lambda x: x[1], reverse=True)` (embedded as a stable
  insertion sort by descending score), rank assembly `range(1, n+1)`, and the
  save/export actions available only in the success branch.
-/

/-- A source document as seen by `extract_text_from_pdf`: either `PdfReader`
decodes it into a list of pages, each yielding a (possibly empty) extracted
text string, or reading/extraction raises an exception with message `msg`. -/
inductive PdfFile where
  | ok (pages : List String) : PdfFile
  | broken (msg : String) : PdfFile
deriving DecidableEq

/-- The page loop of `extract_text_from_pdf`: concatenate each page's text
followed by a newline, skipping falsy (empty) page texts. -/
def joinPages (pages : List String) : String :=
  pages.foldl (fun acc p => if p = "" then acc else acc ++ p ++ "\n") ""

/-- Python's `str.strip()`: remove leading and trailing whitespace. -/
def pyStrip (s : String) : String :=
  String.mk (((s.data.dropWhile Char.isWhitespace).reverse.dropWhile Char.isWhitespace).reverse)

/-- `extract_text_from_pdf` from `app.py`: concatenates page texts, strips the
result, returns the sentinel `"No readable text found."` when no page yielded
text, and catches every exception, turning it into an error-message string. -/
def extract_text_from_pdf : PdfFile → String
  | PdfFile.ok pages =>
      if joinPages pages = "" then "No readable text found."
      else pyStrip (joinPages pages)
  | PdfFile.broken msg => "Error extracting text: " ++ msg

/-- The dashboard's extraction loop applies `extract_text_from_pdf` to every
uploaded file independently; no file's failure interrupts the others. -/
def extractAll (files : List PdfFile) : List String :=
  files.map extract_text_from_pdf

/-- A word character of the default `TfidfVectorizer` token pattern `\w`
(ASCII fragment): letters, digits, or underscore. -/
def isWordChar (c : Char) : Bool := c.isAlphanum || c == '_'

/-- Splits a character list into its maximal runs of word characters;
`acc` holds the current run, reversed. -/
def splitRunsAux : List Char → List Char → List (List Char)
  | [], acc => if acc.isEmpty then [] else [acc.reverse]
  | c :: cs, acc =>
    if isWordChar c then splitRunsAux cs (c :: acc)
    else if acc.isEmpty then splitRunsAux cs [] else acc.reverse :: splitRunsAux cs []

/-- The default `TfidfVectorizer` analyzer: lowercase, then keep the maximal
word-character runs of length at least two (token pattern `\w\w+`). -/
def tokenize (s : String) : List String :=
  ((splitRunsAux (s.data.map Char.toLower) []).filter (fun r => 2 ≤ r.length)).map
    fun r => String.mk r

/-- The vocabulary of one invocation: the distinct terms occurring in any of
the tokenised documents (query first, then the candidates). -/
def vocab (docs : List (List String)) : List String :=
  docs.flatten.dedup

/-- Document frequency of term `t`: the number of corpus documents that
contain `t`.  The corpus is the full document list handed to the vectoriser,
query document included. -/
def df (docs : List (List String)) (t : String) : ℕ :=
  (docs.filter fun d => decide (t ∈ d)).length

/-- Smoothed inverse document frequency of `TfidfVectorizer` (defaults
`smooth_idf=True`, `use_idf=True`): `ln((n+1)/(df+1)) + 1`, i.e. add-one
smoothing on both counts. -/
noncomputable def idf (docs : List (List String)) (t : String) : ℝ :=
  Real.log (((docs.length : ℝ) + 1) / ((df docs t : ℝ) + 1)) + 1

/-- Unnormalised TF-IDF weight of term `t` in document `d`: raw term count
times smoothed inverse document frequency. -/
noncomputable def tfidfWeight (docs : List (List String)) (d : List String) (t : String) : ℝ :=
  (d.count t : ℝ) * idf docs t

/-- Dot product of the TF-IDF weight vectors of documents `d` and `e`, indexed
by the shared vocabulary. -/
noncomputable def dotP (docs : List (List String)) (d e : List String) : ℝ :=
  ∑ i : Fin (vocab docs).length,
    tfidfWeight docs d ((vocab docs).get i) * tfidfWeight docs e ((vocab docs).get i)

/-- Squared L2 norm of the TF-IDF weight vector of document `d`. -/
noncomputable def normSq (docs : List (List String)) (d : List String) : ℝ :=
  dotP docs d d

open Classical in
/-- Cosine similarity of two documents' TF-IDF vectors: the composition of the
vectoriser's L2 normalisation with `cosine_similarity`.  Both steps replace a
zero norm by one, so a zero vector yields similarity 0 rather than NaN. -/
noncomputable def cosSim (docs : List (List String)) (d e : List String) : ℝ :=
  if normSq docs d = 0 ∨ normSq docs e = 0 then 0
  else dotP docs d e / (Real.sqrt (normSq docs d) * Real.sqrt (normSq docs e))

/-- The score list of `rank_resumes`: one cosine similarity against the query
per candidate, in submission order.  The corpus is `[job_description] +
resumes`, so the query participates in the document-frequency statistics. -/
noncomputable def scoresOf (job_description : String) (resumes : List String) : List ℝ :=
  resumes.map fun r =>
    cosSim ((job_description :: resumes).map tokenize) (tokenize job_description) (tokenize r)

/-- `rank_resumes` from `app.py`.  `Except.error` embeds the `ValueError`
raised by `TfidfVectorizer.fit_transform` when every document tokenises to
nothing (empty vocabulary); the exception is not caught anywhere in the
application. -/
noncomputable def rank_resumes (job_description : String) (resumes : List String) :
    Except String (List ℝ) :=
  if vocab ((job_description :: resumes).map tokenize) = [] then
    Except.error "empty vocabulary"
  else Except.ok (scoresOf job_description resumes)

/-- The marker substring used by the dashboard to classify a candidate's
extracted text as an extraction failure. -/
def errorMarker : String := "Error extracting text"

/-- Python's `pat in s` substring test on strings. -/
def containsSub (pat s : String) : Bool := decide (pat.data <:+: s.data)

/-- The dashboard's extraction loop paired with file names: each upload
becomes `(file.name, extract_text_from_pdf(file))`. -/
def extractedOf (uploads : List (String × PdfFile)) : List (String × String) :=
  uploads.map fun p => (p.1, extract_text_from_pdf p.2)

/-- The `(file name, text)` pairs kept for scoring: those whose text does not
contain the error marker (the loop's `else` branch, order preserved). -/
def usableResumes (files : List (String × String)) : List (String × String) :=
  files.filter fun p => !containsSub errorMarker p.2

/-- The file names collected into `error_files`: those whose extracted text
contains the error marker. -/
def errorFiles (files : List (String × String)) : List String :=
  (files.filter fun p => containsSub errorMarker p.2).map Prod.fst

/-- One row before rank assignment: submission-order index, identifier
(file name), raw similarity score. -/
abbrev REntry : Type := ℕ × String × ℝ

/-- Stable descending insertion by score: `x` is placed before the first entry
whose score is at most `x`'s, so among equal scores the earlier-submitted
entry stays first — the behaviour of Python's stable
`sorted(..., key=lambda x: x[1], reverse=True)`. -/
noncomputable def insertDesc (x : REntry) : List REntry → List REntry
  | [] => [x]
  | y :: ys => if y.2.2 ≤ x.2.2 then x :: y :: ys else y :: insertDesc x ys

/-- Stable sort by descending score (insertion sort formulation of Python's
stable reverse sort on the score key). -/
noncomputable def sortDesc : List REntry → List REntry
  | [] => []
  | x :: xs => insertDesc x (sortDesc xs)

/-- Assembly of the results table from the `(name, score)` pairs
`zip(file_names, scores)`: stable-sort by descending score, then attach the
dense 1-based ranks `range(1, n+1)`.  Each output row is
`(rank, (submission index, name, raw score))`. -/
noncomputable def rankingResult (pairs : List (String × ℝ)) : List (ℕ × REntry) :=
  (sortDesc pairs.enum).enum.map fun p => (p.1 + 1, p.2)

/-- The total order the assembled ranking is sorted by: strictly greater
score, or equal score and strictly smaller submission-order index. -/
def rOrd (a b : REntry) : Prop :=
  b.2.2 < a.2.2 ∨ (a.2.2 = b.2.2 ∧ a.1 < b.1)

/-- Outcome of one click of the `Rank Resumes` button:
`noValidResumes` is the `st.error("No valid resumes to process")` branch,
`raised msg` an uncaught exception escaping `rank_resumes`, and
`ranked rows errs` the success branch displaying the results table `rows`
after warning about the excluded files `errs`. -/
inductive DashOutcome where
  | noValidResumes : DashOutcome
  | raised (msg : String) : DashOutcome
  | ranked (rows : List (ℕ × REntry)) (errs : List String) : DashOutcome

/-- The ranking block of `show_dashboard`: extract every upload, split into
usable resumes and error files by the marker-substring test, refuse to rank
when no usable resume remains, and otherwise score, sort and assemble. -/
noncomputable def processUploads (jd : String) (uploads : List (String × PdfFile)) :
    DashOutcome :=
  if (usableResumes (extractedOf uploads)).map Prod.snd = [] then
    DashOutcome.noValidResumes
  else
    match rank_resumes jd ((usableResumes (extractedOf uploads)).map Prod.snd) with
    | Except.error m => DashOutcome.raised m
    | Except.ok scores =>
        DashOutcome.ranked
          (rankingResult (((usableResumes (extractedOf uploads)).map Prod.fst).zip scores))
          (errorFiles (extractedOf uploads))

/-- The `Rank Resumes` button guard: Python truthiness of
`uploaded_files and job_description` — the button is disabled (no invocation,
`none`) iff the upload list is empty or the query string is empty. -/
def rankAllowed (uploads : List (String × PdfFile)) (jd : String) : Bool :=
  !uploads.isEmpty && !(jd == "")

/-- One dashboard interaction: `none` when the button is disabled, otherwise
the outcome of the ranking block. -/
noncomputable def show_dashboard (jd : String) (uploads : List (String × PdfFile)) :
    Option DashOutcome :=
  if rankAllowed uploads jd then some (processUploads jd uploads) else none

/-- `save_ranking_history` is invoked exactly in the success branch, with the
results table; nothing is saved otherwise. -/
def savedHistory : DashOutcome → Option (List (ℕ × REntry))
  | DashOutcome.ranked rows _ => some rows
  | _ => none

/-- The CSV/Excel download buttons are offered exactly in the success
branch. -/
def exportOffered : DashOutcome → Bool
  | DashOutcome.ranked _ _ => true
  | _ => false

/-- Whether the outcome presents a ranking as success. -/
def isRanked : DashOutcome → Bool
  | DashOutcome.ranked _ _ => true
  | _ => false

/-- The identifiers appearing among the ranked entries of an outcome. -/
def rankedNames : DashOutcome → List String
  | DashOutcome.ranked rows _ => rows.map fun r => r.2.2.1
  | _ => []

/-! ### Helper lemmas: the stable descending sort -/

theorem mem_insertDesc {z x : REntry} {l : List REntry} :
    z ∈ insertDesc x l ↔ z = x ∨ z ∈ l := by
  induction l with
  | nil => simp [insertDesc]
  | cons y ys ih =>
    by_cases h : y.2.2 ≤ x.2.2
    · simp [insertDesc, h]
    · simp only [insertDesc, if_neg h, List.mem_cons, ih]
      tauto

theorem insertDesc_perm (x : REntry) (l : List REntry) :
    (insertDesc x l).Perm (x :: l) := by
  induction l with
  | nil => simp [insertDesc]
  | cons y ys ih =>
    by_cases h : y.2.2 ≤ x.2.2
    · simp [insertDesc, h]
    · simp only [insertDesc, if_neg h]
      exact (ih.cons y).trans (List.Perm.swap x y ys)

theorem sortDesc_perm (l : List REntry) : (sortDesc l).Perm l := by
  induction l with
  | nil => simp [sortDesc]
  | cons x xs ih => exact (insertDesc_perm x (sortDesc xs)).trans (ih.cons x)

theorem insertDesc_pairwise {x : REntry} {l : List REntry}
    (hl : l.Pairwise rOrd) (hx : ∀ y ∈ l, x.1 < y.1) :
    (insertDesc x l).Pairwise rOrd := by
  induction l with
  | nil => simp [insertDesc]
  | cons y ys ih =>
    rcases List.pairwise_cons.mp hl with ⟨hy, hys⟩
    by_cases h : y.2.2 ≤ x.2.2
    · simp only [insertDesc, if_pos h]
      refine List.pairwise_cons.mpr ⟨?_, hl⟩
      intro z hz
      rcases List.mem_cons.mp hz with rfl | hz'
      · rcases lt_or_eq_of_le h with hlt | heq
        · exact Or.inl hlt
        · exact Or.inr ⟨heq.symm, hx z (List.mem_cons_self _ _)⟩
      · have hzy := hy z hz'
        have hz2 : z.2.2 ≤ x.2.2 := by
          rcases hzy with h1 | ⟨h1, _⟩
          · exact le_trans (le_of_lt h1) h
          · exact h1 ▸ h
        rcases lt_or_eq_of_le hz2 with hlt | heq
        · exact Or.inl hlt
        · exact Or.inr ⟨heq.symm, hx z (List.mem_cons_of_mem _ hz')⟩
    · simp only [insertDesc, if_neg h]
      refine List.pairwise_cons.mpr
        ⟨?_, ih hys fun z hz => hx z (List.mem_cons_of_mem _ hz)⟩
      intro z hz
      rcases mem_insertDesc.mp hz with rfl | hz'
      · exact Or.inl (lt_of_not_le h)
      · exact hy z hz'

theorem sortDesc_pairwise {l : List REntry}
    (hl : l.Pairwise fun a b => a.1 < b.1) : (sortDesc l).Pairwise rOrd := by
  induction l with
  | nil => simp [sortDesc]
  | cons x xs ih =>
    rcases List.pairwise_cons.mp hl with ⟨hx, hxs⟩
    simp only [sortDesc]
    exact insertDesc_pairwise (ih hxs)
      fun y hy => hx y ((sortDesc_perm xs).mem_iff.mp hy)

theorem le_fst_of_mem_enumFrom {α : Type} {p : ℕ × α} :
    ∀ {n : ℕ} {l : List α}, p ∈ List.enumFrom n l → n ≤ p.1 := by
  intro n l
  induction l generalizing n with
  | nil => intro h; simp [List.enumFrom] at h
  | cons a as ih =>
    intro h
    simp only [List.enumFrom, List.mem_cons] at h
    rcases h with rfl | h'
    · exact le_refl _
    · exact le_trans (Nat.le_succ n) (ih h')

theorem pairwise_fst_lt_enumFrom {α : Type} (n : ℕ) (l : List α) :
    (List.enumFrom n l).Pairwise fun a b => a.1 < b.1 := by
  induction l generalizing n with
  | nil => simp [List.enumFrom]
  | cons a as ih =>
    simp only [List.enumFrom]
    refine List.pairwise_cons.mpr ⟨?_, ih (n + 1)⟩
    intro p hp
    exact lt_of_lt_of_le (Nat.lt_succ_self n) (le_fst_of_mem_enumFrom hp)

theorem pairwise_fst_lt_enum {α : Type} (l : List α) :
    l.enum.Pairwise fun a b => a.1 < b.1 :=
  pairwise_fst_lt_enumFrom 0 l

/-- C2: for every list of (identifier, score) pairs in submission order, the
assembled ranking has the dense rank column 1..n, strictly increasing; its
rows are sorted primarily by strictly descending raw score with exact ties
broken by strictly ascending submission-order index; and the score column is
non-increasing as rank increases. -/
theorem rankingResult_sorted_and_dense (pairs : List (String × ℝ)) :
    (rankingResult pairs).map Prod.fst = List.range' 1 pairs.length ∧
    ((rankingResult pairs).map Prod.fst).Pairwise (fun a b => a < b) ∧
    ((rankingResult pairs).map Prod.snd).Pairwise rOrd ∧
    ((rankingResult pairs).map fun p => p.2.2.2).Pairwise fun a b : ℝ => b ≤ a := by
  have hlen : (sortDesc pairs.enum).length = pairs.length := by
    rw [(sortDesc_perm pairs.enum).length_eq, List.enum_length]
  have hfst : (rankingResult pairs).map Prod.fst = List.range' 1 pairs.length := by
    rw [rankingResult, List.map_map]
    have hcomp : (Prod.fst ∘ fun p : ℕ × REntry => (p.1 + 1, p.2)) =
        (fun n => 1 + n) ∘ Prod.fst := by
      funext p
      simp [Nat.add_comm]
    rw [hcomp, ← List.map_map, List.enum_map_fst, hlen, List.range_eq_range',
      List.map_add_range' 1 0 pairs.length 1]
  have hsnd : (rankingResult pairs).map Prod.snd = sortDesc pairs.enum := by
    rw [rankingResult, List.map_map]
    have hcomp : (Prod.snd ∘ fun p : ℕ × REntry => (p.1 + 1, p.2)) = Prod.snd := rfl
    rw [hcomp, List.enum_map_snd]
  have hpair : (sortDesc pairs.enum).Pairwise rOrd :=
    sortDesc_pairwise (pairwise_fst_lt_enum pairs)
  refine ⟨hfst, ?_, ?_, ?_⟩
  · rw [hfst]
    exact List.pairwise_lt_range' 1 pairs.length
  · rw [hsnd]
    exact hpair
  · have hmap : ((rankingResult pairs).map fun p => p.2.2.2) =
        ((rankingResult pairs).map Prod.snd).map fun e : REntry => e.2.2 := by
      rw [List.map_map]
      rfl
    rw [hmap, hsnd]
    refine hpair.map (fun e : REntry => e.2.2) ?_
    intro a b hab
    rcases hab with h1 | ⟨h1, _⟩
    · exact le_of_lt h1
    · exact le_of_eq h1.symm

/-! ### Helper lemmas: TF-IDF weights and cosine similarity -/

theorem df_le_length (docs : List (List String)) (t : String) :
    df docs t ≤ docs.length :=
  List.length_filter_le _ _

theorem one_le_idf (docs : List (List String)) (t : String) : 1 ≤ idf docs t := by
  have hdf : (df docs t : ℝ) ≤ (docs.length : ℝ) := Nat.cast_le.mpr (df_le_length docs t)
  have h1 : (1 : ℝ) ≤ ((docs.length : ℝ) + 1) / ((df docs t : ℝ) + 1) := by
    rw [le_div_iff₀ (by positivity)]
    linarith
  have h2 := Real.log_nonneg h1
  simp only [idf]
  linarith

theorem tfidfWeight_nonneg (docs : List (List String)) (d : List String) (t : String) :
    0 ≤ tfidfWeight docs d t :=
  mul_nonneg (Nat.cast_nonneg _) (le_trans zero_le_one (one_le_idf docs t))

theorem dotP_nonneg (docs : List (List String)) (d e : List String) : 0 ≤ dotP docs d e :=
  Finset.sum_nonneg fun _ _ =>
    mul_nonneg (tfidfWeight_nonneg docs d _) (tfidfWeight_nonneg docs e _)

theorem normSq_nonneg (docs : List (List String)) (d : List String) : 0 ≤ normSq docs d :=
  dotP_nonneg docs d d

theorem dotP_sq_le (docs : List (List String)) (d e : List String) :
    dotP docs d e ^ 2 ≤ normSq docs d * normSq docs e := by
  have h := Finset.sum_mul_sq_le_sq_mul_sq Finset.univ
    (fun i : Fin (vocab docs).length => tfidfWeight docs d ((vocab docs).get i))
    (fun i : Fin (vocab docs).length => tfidfWeight docs e ((vocab docs).get i))
  have hd : (∑ i : Fin (vocab docs).length,
      tfidfWeight docs d ((vocab docs).get i) ^ 2) = normSq docs d := by
    refine Finset.sum_congr rfl fun i _ => ?_
    rw [pow_two]
  have he : (∑ i : Fin (vocab docs).length,
      tfidfWeight docs e ((vocab docs).get i) ^ 2) = normSq docs e := by
    refine Finset.sum_congr rfl fun i _ => ?_
    rw [pow_two]
  rw [hd, he] at h
  exact h

theorem cosSim_nonneg (docs : List (List String)) (d e : List String) :
    0 ≤ cosSim docs d e := by
  unfold cosSim
  by_cases h : normSq docs d = 0 ∨ normSq docs e = 0
  · rw [if_pos h]
  · rw [if_neg h]
    exact div_nonneg (dotP_nonneg docs d e)
      (mul_nonneg (Real.sqrt_nonneg _) (Real.sqrt_nonneg _))

theorem cosSim_le_one (docs : List (List String)) (d e : List String) :
    cosSim docs d e ≤ 1 := by
  unfold cosSim
  by_cases h : normSq docs d = 0 ∨ normSq docs e = 0
  · rw [if_pos h]
    exact zero_le_one
  · rw [if_neg h]
    push_neg at h
    have hd : 0 < normSq docs d := lt_of_le_of_ne (normSq_nonneg docs d) (Ne.symm h.1)
    have he : 0 < normSq docs e := lt_of_le_of_ne (normSq_nonneg docs e) (Ne.symm h.2)
    have hden : 0 < Real.sqrt (normSq docs d) * Real.sqrt (normSq docs e) :=
      mul_pos (Real.sqrt_pos.mpr hd) (Real.sqrt_pos.mpr he)
    rw [div_le_one hden]
    have hnum : dotP docs d e ≤ Real.sqrt (normSq docs d * normSq docs e) := by
      rw [show Real.sqrt (normSq docs d * normSq docs e) =
          Real.sqrt (normSq docs d) * Real.sqrt (normSq docs e) from
        Real.sqrt_mul (normSq_nonneg docs d) _] at *
      rw [← Real.sqrt_mul (normSq_nonneg docs d)]
      exact (Real.le_sqrt (dotP_nonneg docs d e)
        (mul_nonneg (normSq_nonneg docs d) (normSq_nonneg docs e))).mpr
        (dotP_sq_le docs d e)
    calc dotP docs d e ≤ Real.sqrt (normSq docs d * normSq docs e) := hnum
    _ = Real.sqrt (normSq docs d) * Real.sqrt (normSq docs e) :=
        Real.sqrt_mul (normSq_nonneg docs d) _

theorem cosSim_zero_left {docs : List (List String)} {d : List String}
    (h : normSq docs d = 0) (e : List String) : cosSim docs d e = 0 := by
  unfold cosSim
  rw [if_pos (Or.inl h)]

theorem cosSim_zero_right {docs : List (List String)} (d : List String) {e : List String}
    (h : normSq docs e = 0) : cosSim docs d e = 0 := by
  unfold cosSim
  rw [if_pos (Or.inr h)]

theorem cosSim_self {docs : List (List String)} {d : List String}
    (h : normSq docs d ≠ 0) : cosSim docs d d = 1 := by
  unfold cosSim
  rw [if_neg (by tauto), Real.mul_self_sqrt (normSq_nonneg docs d)]
  exact div_self h

theorem normSq_nil (docs : List (List String)) : normSq docs [] = 0 := by
  simp [normSq, dotP, tfidfWeight]

theorem normSq_pos_of_mem {docs : List (List String)} {d : List String} {t : String}
    (htd : t ∈ d) (hdocs : d ∈ docs) : 0 < normSq docs d := by
  have htv : t ∈ vocab docs := List.mem_dedup.mpr (List.mem_flatten.mpr ⟨d, hdocs, htd⟩)
  rcases List.mem_iff_get.mp htv with ⟨j, hj⟩
  have hc : (1 : ℝ) ≤ (d.count t : ℝ) := by
    exact_mod_cast Nat.one_le_iff_ne_zero.mpr (Nat.pos_iff_ne_zero.mp
      (List.count_pos_iff.mpr htd))
  have hw : (1 : ℝ) ≤ tfidfWeight docs d t := by
    have hi := one_le_idf docs t
    calc (1 : ℝ) = 1 * 1 := by ring
    _ ≤ (d.count t : ℝ) * idf docs t := mul_le_mul hc hi zero_le_one (by linarith)
    _ = tfidfWeight docs d t := rfl
  have hterm : (1 : ℝ) ≤
      tfidfWeight docs d ((vocab docs).get j) * tfidfWeight docs d ((vocab docs).get j) := by
    rw [hj]
    nlinarith
  have hsum : tfidfWeight docs d ((vocab docs).get j) *
      tfidfWeight docs d ((vocab docs).get j) ≤ normSq docs d := by
    unfold normSq dotP
    exact Finset.single_le_sum
      (fun i _ => mul_nonneg (tfidfWeight_nonneg docs d _) (tfidfWeight_nonneg docs d _))
      (Finset.mem_univ j)
  linarith

theorem vocab_ne_nil_of_token (jd : String) (resumes : List String)
    (htok : tokenize jd ≠ []) :
    vocab ((jd :: resumes).map tokenize) ≠ [] := by
  rcases List.exists_mem_of_ne_nil _ htok with ⟨t, ht⟩
  exact List.ne_nil_of_mem (List.mem_dedup.mpr (List.mem_flatten.mpr
    ⟨tokenize jd, by simp, ht⟩))

theorem getD_map_of_lt {α β : Type} (f : α → β) (l : List α) (i : ℕ)
    (hi : i < l.length) (da : α) (db : β) :
    (l.map f).getD i db = f (l.getD i da) := by
  rw [List.getD_eq_getElem _ _ (by simpa using hi), List.getD_eq_getElem _ _ hi,
    List.getElem_map]

/-! ### Claims about the scorer: C4, C5, C7, C8 -/

/-- C4 fails as stated: the inputs below are a query and a non-empty list of
usable (extraction-successful, non-empty) candidate texts, yet the scorer
returns no score list at all — vectorisation raises an empty-vocabulary
error because every document tokenises to nothing. -/
theorem scorer_totality_counterexample :
    ("!!" : String) ≠ "" ∧
    containsSub errorMarker "!!" = false ∧
    rank_resumes "?" ["!!"] = Except.error "empty vocabulary" := by
  refine ⟨by decide, by decide, ?_⟩
  unfold rank_resumes
  rw [if_pos (by decide)]

/-- C4 (amended): whenever the combined tokenisation of query and candidates
yields a non-empty vocabulary, the scorer returns exactly one score per
candidate, every score lies in the closed interval [0, 1], and a candidate
whose weighted vector is the zero vector receives exactly 0. -/
theorem similarity_scores_unit_interval (jd : String) (resumes : List String)
    (hv : vocab ((jd :: resumes).map tokenize) ≠ []) :
    rank_resumes jd resumes = Except.ok (scoresOf jd resumes) ∧
    (scoresOf jd resumes).length = resumes.length ∧
    (∀ s ∈ scoresOf jd resumes, 0 ≤ s ∧ s ≤ 1) ∧
    (∀ i, i < resumes.length →
      normSq ((jd :: resumes).map tokenize) (tokenize (resumes.getD i "")) = 0 →
      (scoresOf jd resumes).getD i 0 = 0) := by
  refine ⟨?_, ?_, ?_, ?_⟩
  · unfold rank_resumes
    rw [if_neg hv]
  · simp [scoresOf]
  · intro s hs
    rcases List.mem_map.mp hs with ⟨r, _, rfl⟩
    exact ⟨cosSim_nonneg _ _ _, cosSim_le_one _ _ _⟩
  · intro i hi hz
    unfold scoresOf
    rw [getD_map_of_lt _ resumes i hi ""]
    exact cosSim_zero_right _ hz

theorem similarity_scores_unit_interval_witness :
    vocab (("ab" :: ["cd"]).map tokenize) ≠ [] ∧
    (scoresOf "ab" ["cd"]).length = 1 :=
  ⟨by decide, (similarity_scores_unit_interval "ab" ["cd"] (by decide)).2.1⟩

/-- C5: the term weight of `t` in a document is its raw term frequency times
the smoothed inverse document frequency `ln((n+1)/(df+1)) + 1`; the document
frequency is taken over the combined corpus `query :: candidates` with the
query participating uniformly (one unit of document frequency when the term
occurs in the query); the add-one smoothing makes the denominator nonzero,
gives a term occurring in every corpus document the inverse document
frequency exactly 1, and keeps the weight of every occurring term nonzero. -/
theorem tfidf_smoothed_combined_corpus (jd : String) (resumes : List String)
    (t : String) (d : List String) :
    tfidfWeight ((jd :: resumes).map tokenize) d t =
      (d.count t : ℝ) *
        (Real.log (((((jd :: resumes).map tokenize).length : ℝ) + 1) /
          ((df ((jd :: resumes).map tokenize) t : ℝ) + 1)) + 1) ∧
    df ((jd :: resumes).map tokenize) t =
      (if t ∈ tokenize jd then 1 else 0) + df (resumes.map tokenize) t ∧
    ((df ((jd :: resumes).map tokenize) t : ℝ) + 1) ≠ 0 ∧
    ((∀ dd ∈ (jd :: resumes).map tokenize, t ∈ dd) →
      idf ((jd :: resumes).map tokenize) t = 1) ∧
    (0 < d.count t → tfidfWeight ((jd :: resumes).map tokenize) d t ≠ 0) := by
  refine ⟨rfl, ?_, by positivity, ?_, ?_⟩
  · unfold df
    rw [List.map_cons, List.filter_cons]
    by_cases h : t ∈ tokenize jd
    · simp [h, Nat.add_comm]
    · simp [h]
  · intro hall
    have hdf : df ((jd :: resumes).map tokenize) t =
        ((jd :: resumes).map tokenize).length := by
      unfold df
      rw [List.filter_eq_self.mpr fun dd hdd => by simpa using hall dd hdd]
    unfold idf
    rw [hdf, div_self (by positivity), Real.log_one]
    ring
  · intro hc
    have h1 : (1 : ℝ) ≤ (d.count t : ℝ) := by exact_mod_cast hc
    have h2 := one_le_idf ((jd :: resumes).map tokenize) t
    unfold tfidfWeight
    nlinarith

theorem tfidf_smoothed_combined_corpus_witness :
    idf (("ab" :: ["ab cd"]).map tokenize) "ab" = 1 ∧
    tfidfWeight (("ab" :: ["ab cd"]).map tokenize) (tokenize "ab cd") "ab" ≠ 0 := by
  have h := tfidf_smoothed_combined_corpus "ab" ["ab cd"] "ab" (tokenize "ab cd")
  exact ⟨h.2.2.2.1 (by decide), h.2.2.2.2 (by decide)⟩

/-- C7 fails as stated: the query `"!!"` is a non-empty string and the first
candidate is byte-identical to it, yet its similarity score is 0, not within
1e-9 of 1.0 — both texts tokenise to nothing, so the candidate's weighted
vector is zero and the zero-vector guard yields 0. -/
theorem identical_text_counterexample :
    ("!!" : String) ≠ "" ∧
    rank_resumes "!!" ["!!", "ab"] = Except.ok [0, 0] ∧
    ¬(|(0 : ℝ) - 1| ≤ 1 / 1000000000) := by
  refine ⟨by decide, ?_, by rw [zero_sub, abs_neg, abs_one]; norm_num⟩
  have hq : tokenize "!!" = [] := by decide
  unfold rank_resumes
  rw [if_neg (by decide)]
  congr 1
  simp only [scoresOf, List.map_cons, List.map_nil, hq]
  rw [cosSim_zero_left (normSq_nil _), cosSim_zero_left (normSq_nil _)]

/-- C7 (amended): for every query whose tokenisation yields at least one term
and every candidate byte-identical to the query text, that candidate's
similarity score is exactly 1, in particular within 1e-9 of 1.0. -/
theorem identical_text_scores_one (jd : String) (resumes : List String) (i : ℕ)
    (hi : i < resumes.length) (heq : resumes.getD i "" = jd)
    (htok : tokenize jd ≠ []) :
    rank_resumes jd resumes = Except.ok (scoresOf jd resumes) ∧
    |(scoresOf jd resumes).getD i 0 - 1| ≤ 1 / 1000000000 := by
  have hv := vocab_ne_nil_of_token jd resumes htok
  rcases List.exists_mem_of_ne_nil _ htok with ⟨t, ht⟩
  have hmemdocs : tokenize jd ∈ (jd :: resumes).map tokenize := by simp
  have hpos : 0 < normSq ((jd :: resumes).map tokenize) (tokenize jd) :=
    normSq_pos_of_mem ht hmemdocs
  constructor
  · unfold rank_resumes
    rw [if_neg hv]
  · unfold scoresOf
    rw [getD_map_of_lt _ resumes i hi "", heq, cosSim_self (ne_of_gt hpos)]
    norm_num

theorem identical_text_scores_one_witness :
    tokenize "ab" ≠ [] ∧
    |(scoresOf "ab" ["ab"]).getD 0 0 - 1| ≤ 1 / 1000000000 :=
  ⟨by decide, (identical_text_scores_one "ab" ["ab"] 0 (by decide) rfl (by decide)).2⟩

/-- C8: `rank_resumes` is not total — the query and the single candidate text
below are non-empty strings (and the candidate passes the dashboard's
usability filter), but every document tokenises to nothing, so the
vectoriser raises an empty-vocabulary `ValueError` instead of returning a
score list or reporting insufficient input. -/
theorem rank_resumes_raises_on_empty_vocabulary :
    ("!" : String) ≠ "" ∧ ("? a" : String) ≠ "" ∧
    tokenize "!" = [] ∧ tokenize "? a" = [] ∧
    containsSub errorMarker "? a" = false ∧
    rank_resumes "!" ["? a"] = Except.error "empty vocabulary" := by
  refine ⟨by decide, by decide, by decide, by decide, by decide, ?_⟩
  unfold rank_resumes
  rw [if_pos (by decide)]

/-! ### Helper lemmas: ranking assembly names -/

theorem rankingResult_names_perm (pairs : List (String × ℝ)) :
    ((rankingResult pairs).map fun r => r.2.2.1).Perm (pairs.map Prod.fst) := by
  have h1 : ((rankingResult pairs).map fun r => r.2.2.1) =
      (sortDesc pairs.enum).map fun e : REntry => e.2.1 := by
    rw [rankingResult, List.map_map]
    have h2 : ((fun r : ℕ × REntry => r.2.2.1) ∘ fun p : ℕ × REntry => (p.1 + 1, p.2)) =
        (fun e : REntry => e.2.1) ∘ Prod.snd := rfl
    rw [h2, ← List.map_map, List.enum_map_snd]
  rw [h1]
  refine ((sortDesc_perm pairs.enum).map fun e : REntry => e.2.1).trans ?_
  have h4 : (pairs.enum.map fun e : REntry => e.2.1) =
      (pairs.enum.map Prod.snd).map Prod.fst := by
    rw [List.map_map]
    rfl
  rw [h4, List.enum_map_snd]

/-! ### Claims about the dashboard: C1, C3, C6, C9, C10 -/

/-- C1 is violated by the code: a document that decodes but yields no
extractable text produces the sentinel `"No readable text found."`, which
does not contain the error marker, so the dashboard keeps it as a usable
resume and scores the sentinel text itself — the candidate receives a Score
Record and appears among the ranked entries instead of being excluded. -/
theorem noReadableText_is_ranked :
    extract_text_from_pdf (PdfFile.ok [""]) = "No readable text found." ∧
    isRanked (processUploads "hello"
      [("a.pdf", PdfFile.ok [""]), ("b.pdf", PdfFile.ok ["hello world"])]) = true ∧
    "a.pdf" ∈ rankedNames (processUploads "hello"
      [("a.pdf", PdfFile.ok [""]), ("b.pdf", PdfFile.ok ["hello world"])]) := by
  have hsnd : (usableResumes (extractedOf
      [("a.pdf", PdfFile.ok [""]), ("b.pdf", PdfFile.ok ["hello world"])])).map Prod.snd =
      ["No readable text found.", "hello world"] := by decide
  have hfst : (usableResumes (extractedOf
      [("a.pdf", PdfFile.ok [""]), ("b.pdf", PdfFile.ok ["hello world"])])).map Prod.fst =
      ["a.pdf", "b.pdf"] := by decide
  have hrr : rank_resumes "hello" ["No readable text found.", "hello world"] =
      Except.ok (scoresOf "hello" ["No readable text found.", "hello world"]) := by
    unfold rank_resumes
    rw [if_neg (by decide)]
  have hp : processUploads "hello"
      [("a.pdf", PdfFile.ok [""]), ("b.pdf", PdfFile.ok ["hello world"])] =
      DashOutcome.ranked
        (rankingResult (["a.pdf", "b.pdf"].zip
          (scoresOf "hello" ["No readable text found.", "hello world"])))
        (errorFiles (extractedOf
          [("a.pdf", PdfFile.ok [""]), ("b.pdf", PdfFile.ok ["hello world"])])) := by
    unfold processUploads
    rw [hsnd, if_neg (by decide), hrr, hfst]
  refine ⟨by decide, ?_, ?_⟩
  · rw [hp]
    rfl
  · rw [hp]
    simp only [rankedNames]
    have hlen : (scoresOf "hello" ["No readable text found.", "hello world"]).length = 2 := by
      simp [scoresOf]
    have hzipfst : ((["a.pdf", "b.pdf"]).zip
        (scoresOf "hello" ["No readable text found.", "hello world"])).map Prod.fst =
        ["a.pdf", "b.pdf"] :=
      List.map_fst_zip _ _ (by simp [hlen])
    refine (rankingResult_names_perm _).mem_iff.mpr ?_
    rw [hzipfst]
    simp

/-- C3 fails as stated: the query below is whitespace-only (non-empty, and
empty after trimming), yet the invocation is not rejected — the button guard
only tests Python truthiness, so a ranking is produced (with score 0, since
the query vector is zero). -/
theorem whitespace_query_not_rejected :
    (" " : String) ≠ "" ∧ pyStrip " " = "" ∧
    show_dashboard " " [("a.pdf", PdfFile.ok ["hello world"])] =
      some (DashOutcome.ranked [(1, 0, "a.pdf", (0 : ℝ))] []) := by
  have hrr : rank_resumes " " ["hello world"] = Except.ok [(0 : ℝ)] := by
    unfold rank_resumes
    rw [if_neg (by decide)]
    congr 1
    simp only [scoresOf, List.map_cons, List.map_nil]
    rw [show tokenize " " = [] from by decide, cosSim_zero_left (normSq_nil _)]
  have hrank : rankingResult [("a.pdf", (0 : ℝ))] = [(1, 0, "a.pdf", (0 : ℝ))] := by
    unfold rankingResult
    simp [sortDesc, insertDesc, List.enum, List.enumFrom]
  refine ⟨by decide, by decide, ?_⟩
  unfold show_dashboard
  rw [if_pos (by decide)]
  unfold processUploads
  rw [show (usableResumes (extractedOf [("a.pdf", PdfFile.ok ["hello world"])])).map Prod.snd
      = ["hello world"] from by decide]
  rw [if_neg (by decide : ¬(["hello world"] : List String) = [])]
  rw [hrr]
  rw [show (usableResumes (extractedOf [("a.pdf", PdfFile.ok ["hello world"])])).map Prod.fst
      = ["a.pdf"] from by decide]
  rw [show errorFiles (extractedOf [("a.pdf", PdfFile.ok ["hello world"])]) = ([] : List String)
      from by decide]
  show some (DashOutcome.ranked (rankingResult [("a.pdf", (0 : ℝ))]) []) =
    some (DashOutcome.ranked [(1, 0, "a.pdf", (0 : ℝ))] [])
  rw [hrank]

/-- C3 (amended): the invocation is rejected (button disabled, nothing runs)
iff the upload list is empty or the query is the empty string; no whitespace
trimming is applied, so a whitespace-only query is accepted. -/
theorem invocation_rejected_iff_empty (jd : String)
    (uploads : List (String × PdfFile)) :
    show_dashboard jd uploads = none ↔ (uploads = [] ∨ jd = "") := by
  have hr : rankAllowed uploads jd = true ↔ ¬(uploads = [] ∨ jd = "") := by
    simp [rankAllowed, List.isEmpty_iff, not_or]
  unfold show_dashboard
  by_cases hb : rankAllowed uploads jd = true
  · rw [if_pos hb]
    constructor
    · intro h
      exact absurd h (by simp)
    · intro h
      exact absurd h (hr.mp hb)
  · rw [if_neg hb]
    have h2 : uploads = [] ∨ jd = "" := by
      by_contra hc
      exact hb (hr.mpr hc)
    simp [h2]

theorem invocation_rejected_iff_empty_witness :
    show_dashboard "" [("a.pdf", PdfFile.broken "m")] = none :=
  (invocation_rejected_iff_empty "" [("a.pdf", PdfFile.broken "m")]).mpr (Or.inr rfl)

/-- C6: when zero candidates have usable text after extraction, the ranking
block takes the distinct `"No valid resumes to process"` error branch: no
ranking outcome is presented as success, nothing is saved to history, and no
export is offered. -/
theorem no_usable_resumes_insufficient_input (jd : String)
    (uploads : List (String × PdfFile))
    (h : (usableResumes (extractedOf uploads)).map Prod.snd = []) :
    processUploads jd uploads = DashOutcome.noValidResumes ∧
    isRanked (processUploads jd uploads) = false ∧
    savedHistory (processUploads jd uploads) = none ∧
    exportOffered (processUploads jd uploads) = false := by
  have hp : processUploads jd uploads = DashOutcome.noValidResumes := by
    unfold processUploads
    rw [if_pos h]
  exact ⟨hp, by rw [hp]; rfl, by rw [hp]; rfl, by rw [hp]; rfl⟩

theorem no_usable_resumes_insufficient_input_witness :
    processUploads "engineer" [("x.pdf", PdfFile.broken "bad")] =
      DashOutcome.noValidResumes :=
  (no_usable_resumes_insufficient_input "engineer" [("x.pdf", PdfFile.broken "bad")]
    (by decide)).1

/-- C9: the dashboard classifies extraction failure by a substring test on
the extracted text — any candidate whose successfully extracted text happens
to contain `"Error extracting text"` is put on the error-file list and
removed from the usable resumes, even though its extraction succeeded. -/
theorem error_marker_substring_excludes (uploads : List (String × PdfFile))
    (nm : String) (pages : List String)
    (hmem : (nm, PdfFile.ok pages) ∈ uploads)
    (hsub : containsSub errorMarker (extract_text_from_pdf (PdfFile.ok pages)) = true) :
    nm ∈ errorFiles (extractedOf uploads) ∧
    (nm, extract_text_from_pdf (PdfFile.ok pages)) ∉ usableResumes (extractedOf uploads) := by
  constructor
  · refine List.mem_map.mpr ⟨(nm, extract_text_from_pdf (PdfFile.ok pages)), ?_, rfl⟩
    refine List.mem_filter.mpr ⟨?_, hsub⟩
    exact List.mem_map.mpr ⟨(nm, PdfFile.ok pages), hmem, rfl⟩
  · intro hcon
    have hkeep := (List.mem_filter.mp hcon).2
    rw [hsub] at hkeep
    simp at hkeep

theorem error_marker_substring_excludes_witness :
    "r.pdf" ∈ errorFiles (extractedOf
      [("r.pdf", PdfFile.ok ["see Error extracting text guide"])]) :=
  (error_marker_substring_excludes
    [("r.pdf", PdfFile.ok ["see Error extracting text guide"])]
    "r.pdf" ["see Error extracting text guide"] (by decide) (by decide)).1

/-- C10: `extract_text_from_pdf` is total: for every input it returns a
string — the stripped page concatenation when text was extracted, the exact
sentinel `"No readable text found."` when no page yielded text, and an
error-message string beginning with `"Error extracting text"` when reading
raised — and batch extraction maps it over every file independently, so one
document's failure cannot abort extraction of the others. -/
theorem extract_text_from_pdf_total (files : List PdfFile) :
    (extractAll files).length = files.length ∧
    ∀ f ∈ files,
      (∃ msg, f = PdfFile.broken msg ∧
        extract_text_from_pdf f = "Error extracting text: " ++ msg ∧
        ("Error extracting text").data <+: (extract_text_from_pdf f).data) ∨
      (∃ pages, f = PdfFile.ok pages ∧
        ((joinPages pages = "" ∧ extract_text_from_pdf f = "No readable text found.") ∨
         (joinPages pages ≠ "" ∧ extract_text_from_pdf f = pyStrip (joinPages pages)))) := by
  refine ⟨by simp [extractAll], ?_⟩
  intro f _
  cases f with
  | ok pages =>
    refine Or.inr ⟨pages, rfl, ?_⟩
    by_cases h : joinPages pages = ""
    · refine Or.inl ⟨h, ?_⟩
      simp only [extract_text_from_pdf]
      rw [if_pos h]
    · refine Or.inr ⟨h, ?_⟩
      simp only [extract_text_from_pdf]
      rw [if_neg h]
  | broken msg =>
    refine Or.inl ⟨msg, rfl, rfl, ?_⟩
    rw [show extract_text_from_pdf (PdfFile.broken msg) =
        "Error extracting text: " ++ msg from rfl, String.data_append]
    exact List.prefix_append _ _

theorem extract_text_from_pdf_total_witness :
    (extractAll [PdfFile.broken "boom", PdfFile.ok ["hi"], PdfFile.ok [""]]).length = 3 :=
  (extract_text_from_pdf_total [PdfFile.broken "boom", PdfFile.ok ["hi"], PdfFile.ok [""]]).1

theorem rankingResult_sorted_and_dense_witness :
    (rankingResult [("a", (1 : ℝ) / 2), ("b", 1)]).map Prod.fst = List.range' 1 2 :=
  (rankingResult_sorted_and_dense [("a", (1 : ℝ) / 2), ("b", 1)]).1
